import Mathlib

/-!
Verification development for the generic typed object store of the polaris
repository (package boltdb, file src/store/boltdb/namespace.go, which holds
both the namespace store and the boltHandler implementation).

The bucket store engine operations (SaveValue, LoadValues, LoadValuesByFilter,
LoadValuesAll, IterateFields, UpdateValue, DeleteValues, CountValues) and the
field-read helpers (getFieldObject, reflectProtoMsg, reflectMapMsg,
matchObject, getBucket, getKeys, convertInt64Value, convertUint64Value) are
translated from the source. The serialization codec (serializeObject,
deserializeObject, toBucketField, the encode and decode buffer functions and
the tag byte constants) lives in a file of the repository that is not part of
the provided sources; those definitions are modelled from the specification
(spec sections 4.1, 4.2, 4.3) and are marked as such in their doc comments.

Modelling conventions:
- boltdb buckets are modelled as association lists with string keys; bolt
  guarantees unique keys inside a bucket, and the operations below preserve
  that invariant when it holds.  Iteration order of the model is list order
  rather than bolt lexicographic order; the spec promises no iteration order.
- a record bucket separates its flat entries (tagged byte buffers) from its
  nested sub-buckets (string maps); in bolt the two share one namespace and a
  Get on a sub-bucket key returns nil, which the model reflects by looking up
  the flat map first and falling back to the nested map on a miss.
- bytes are modelled as natural numbers; the tag byte constants are modelled
  as distinct small naturals since their concrete values live in the missing
  codec file.
- engine I/O errors and protobuf marshalling errors are not modelled, so the
  corresponding error branches of the source are dead in the model; the
  shape-mismatch errors of reflectProtoMsg are modelled faithfully.
-/

namespace BoltStore

/-- Bit width of an integer field, mirroring the reflect kinds Int, Int8,
Int16, Int32, Int64 (and the unsigned family) that the source dispatches on. -/
inductive NumWidth where
  | w0 | w8 | w16 | w32 | w64
deriving DecidableEq, Repr

/-- Runtime value of a record field: the closed set of kinds supported by the
store (spec section 4.1), plus a constructor standing for a runtime value of
any unsupported kind (used by the UpdateValue dispatch, which silently skips
such values). Protobuf messages are represented by their marshalled bytes. -/
inductive FieldValue where
  | str (s : String)
  | boolV (b : Bool)
  | intV (w : NumWidth) (n : Int)
  | uintV (w : NumWidth) (n : Nat)
  | strMap (entries : List (String × String))
  | msg (bytes : List Nat)
  | timeV (t : Nat)
  | unsupported (tag : String)
deriving DecidableEq, Repr

/-- Declared kind of a field in a prototype shape: what reflection over the
caller-supplied prototype instance exposes (spec section 3, prototype
instance). -/
inductive FieldKind where
  | stringK | boolK | intK (w : NumWidth) | uintK (w : NumWidth)
  | mapK | messageK | timeK
deriving DecidableEq, Repr

/-- A record is the introspectable content of one struct instance: field name
to runtime value. -/
abbrev Record := List (String × FieldValue)

/-- A prototype shape: field name to declared kind. -/
abbrev Shape := List (String × FieldKind)

/-- Lookup in an association list with string keys (first match), the model of
fetching a key from a bolt bucket. -/
def lookupA {α : Type} : List (String × α) → String → Option α
  | [], _ => none
  | (k, v) :: rest, key => if k = key then some v else lookupA rest key

/-- Insert or overwrite in an association list: replaces the first binding of
the key in place, else appends; the model of bolt Put and of rebinding a
sub-bucket. -/
def insertA {α : Type} : List (String × α) → String → α → List (String × α)
  | [], key, v => [(key, v)]
  | (k, w) :: rest, key, v =>
    if k = key then (key, v) :: rest else (k, w) :: insertA rest key v

/-- Remove every binding of a key from an association list; the model of bolt
DeleteBucket (bucket keys are unique in bolt, so at most one binding exists in
any reachable state). -/
def eraseA {α : Type} : List (String × α) → String → List (String × α)
  | [], _ => []
  | (k, v) :: rest, key =>
    if k = key then eraseA rest key else (k, v) :: eraseA rest key

/-- One record bucket: flat entries holding tagged byte buffers, and nested
sub-buckets holding raw string maps (spec section 3, field entry). -/
structure RecordBucket where
  flat : List (String × List Nat)
  nested : List (String × List (String × String))
deriving DecidableEq, Repr

/-- A type bucket: record key to record bucket. -/
abbrev TypeBucket := List (String × RecordBucket)

/-- The whole store: type name to type bucket. -/
abbrev Store := List (String × TypeBucket)

def emptyRecordBucket : RecordBucket := ⟨[], []⟩

def emptyStore : Store := []

/-- Put a flat entry into a record bucket (bolt bucket.Put). -/
def putFlat (b : RecordBucket) (k : String) (v : List Nat) : RecordBucket :=
  { b with flat := insertA b.flat k v }

/-- Bind a nested sub-bucket of a record bucket to the given entries. -/
def putNested (b : RecordBucket) (k : String) (m : List (String × String)) :
    RecordBucket :=
  { b with nested := insertA b.nested k m }

/-! ## Type tag codec, modelled from the spec (section 4.1)

The codec source file is not under src/; the discriminant byte values are
modelled as distinct constants and payload encodings as simple injective byte
sequences. -/

/-- Modelled from the spec: tag byte for string values. -/
def typeString : Nat := 1
/-- Modelled from the spec: tag byte for boolean values. -/
def typeBool : Nat := 2
/-- Modelled from the spec: tag byte for timestamp values. -/
def typeTime : Nat := 3
/-- Modelled from the spec: tag byte for protobuf message values. -/
def typeProtobuf : Nat := 4
/-- Modelled from the spec: tag byte for platform-width signed integers. -/
def typeInt : Nat := 5
/-- Modelled from the spec: tag byte for 8 bit signed integers. -/
def typeInt8 : Nat := 6
/-- Modelled from the spec: tag byte for 16 bit signed integers. -/
def typeInt16 : Nat := 7
/-- Modelled from the spec: tag byte for 32 bit signed integers. -/
def typeInt32 : Nat := 8
/-- Modelled from the spec: tag byte for 64 bit signed integers. -/
def typeInt64 : Nat := 9
/-- Modelled from the spec: tag byte for platform-width unsigned integers. -/
def typeUint : Nat := 10
/-- Modelled from the spec: tag byte for 8 bit unsigned integers. -/
def typeUint8 : Nat := 11
/-- Modelled from the spec: tag byte for 16 bit unsigned integers. -/
def typeUint16 : Nat := 12
/-- Modelled from the spec: tag byte for 32 bit unsigned integers. -/
def typeUint32 : Nat := 13
/-- Modelled from the spec: tag byte for 64 bit unsigned integers. -/
def typeUint64 : Nat := 14

/-- Modelled from the spec: the signed integer tag for each width, the model
of the numberKindToType table used by the source for the signed kinds. -/
def intTag : NumWidth → Nat
  | .w0 => typeInt
  | .w8 => typeInt8
  | .w16 => typeInt16
  | .w32 => typeInt32
  | .w64 => typeInt64

/-- Modelled from the spec: the unsigned integer tag for each width, the model
of the numberKindToType table used by the source for the unsigned kinds. -/
def uintTag : NumWidth → Nat
  | .w0 => typeUint
  | .w8 => typeUint8
  | .w16 => typeUint16
  | .w32 => typeUint32
  | .w64 => typeUint64

/-- Width recovered from a signed integer tag byte on decode. -/
def widthOfIntTag (b : Nat) : NumWidth :=
  if b = typeInt8 then .w8
  else if b = typeInt16 then .w16
  else if b = typeInt32 then .w32
  else if b = typeInt64 then .w64
  else .w0

/-- Width recovered from an unsigned integer tag byte on decode. -/
def widthOfUintTag (b : Nat) : NumWidth :=
  if b = typeUint8 then .w8
  else if b = typeUint16 then .w16
  else if b = typeUint32 then .w32
  else if b = typeUint64 then .w64
  else .w0

/-- String payload as a byte list (one byte per character code point in the
model). -/
def stringToBytes (s : String) : List Nat := s.data.map Char.toNat

/-- Inverse of stringToBytes. -/
def bytesToString (l : List Nat) : String := ⟨l.map Char.ofNat⟩

/-- Modelled from the spec: encode a string into a tagged buffer. -/
def encodeStringBuffer (s : String) : List Nat := typeString :: stringToBytes s

/-- Modelled from the spec: encode a boolean into a tagged buffer. -/
def encodeBoolBuffer (b : Bool) : List Nat := [typeBool, if b then 1 else 0]

/-- Modelled from the spec: encode a timestamp into a tagged buffer. -/
def encodeTimeBuffer (t : Nat) : List Nat := [typeTime, t]

/-- Modelled from the spec: encode a signed integer under the given tag byte,
payload sign byte then magnitude. -/
def encodeIntBuffer (n : Int) (tag : Nat) : List Nat :=
  [tag, if n < 0 then 1 else 0, n.natAbs]

/-- Modelled from the spec: encode an unsigned integer under the given tag
byte. -/
def encodeUintBuffer (n : Nat) (tag : Nat) : List Nat := [tag, n]

/-- Modelled from the spec: encode a protobuf message by its canonical binary
marshalling (the marshalled bytes themselves in the model) under the protobuf
tag. -/
def encodeMessageBuffer (bytes : List Nat) : List Nat := typeProtobuf :: bytes

/-- Modelled from the spec: decode a string payload (the source also returns
an error, which the caller getFieldObject discards). -/
def decodeStringBuffer (buf : List Nat) : String := bytesToString (buf.drop 1)

/-- Modelled from the spec: decode a boolean payload. -/
def decodeBoolBuffer (buf : List Nat) : Bool := buf.getD 1 0 = 1

/-- Modelled from the spec: decode a timestamp payload. -/
def decodeTimeBuffer (buf : List Nat) : Nat := buf.getD 1 0

/-- Modelled from the spec: decode a signed integer payload, dispatching the
width on the tag byte alone (spec section 4.1). -/
def decodeIntBuffer (buf : List Nat) (typByte : Nat) : FieldValue :=
  let mag : Int := buf.getD 2 0
  FieldValue.intV (widthOfIntTag typByte) (if buf.getD 1 0 = 1 then -mag else mag)

/-- Modelled from the spec: decode an unsigned integer payload, dispatching
the width on the tag byte alone. -/
def decodeUintBuffer (buf : List Nat) (typByte : Nat) : FieldValue :=
  FieldValue.uintV (widthOfUintTag typByte) (buf.getD 1 0)

/-- Modelled from the spec: decode a protobuf payload into the message type
obtained from the prototype shape (the bytes themselves in the model; the
unmarshalling failure of the source is not modelled). -/
def decodeMessageBuffer (buf : List Nat) : FieldValue :=
  FieldValue.msg (buf.drop 1)

/-- Modelled from the spec (section 4.2): the field mapper is a pure,
deterministic, injective map from field name to bucket key, applied
identically on every read and write; the identity map realizes it. -/
def toBucketField (field : String) : String := field

/-! ## Record codec -/

/-- Modelled from the spec (sections 4.3 and 4.4): map field entries are
materialized as a nested sub-bucket named by the mapped key; a map with zero
entries legitimately produces no nested bucket. -/
def encodeRawMap (bucket : RecordBucket) (bucketKey : String)
    (entries : List (String × String)) : RecordBucket :=
  if entries.isEmpty then bucket else putNested bucket bucketKey entries

/-- Modelled from the spec (section 4.3): serialize introspects the record
fields and dispatches on each field kind; scalar and message kinds emit one
flat tagged entry into the returned buffer map (zero values included), map
kinds are written as nested sub-buckets directly into the bucket, and fields
of unsupported kind produce nothing. Mirrors the source signature of
serializeObject, which writes nested buckets into its bucket argument and
returns the flat buffers for the caller to Put. -/
def serializeObject (bucket : RecordBucket) (record : Record) :
    RecordBucket × List (String × List Nat) :=
  record.foldl
    (fun acc field =>
      match field.2 with
      | .str s => (acc.1, acc.2 ++ [(toBucketField field.1, encodeStringBuffer s)])
      | .boolV b => (acc.1, acc.2 ++ [(toBucketField field.1, encodeBoolBuffer b)])
      | .intV w n =>
        (acc.1, acc.2 ++ [(toBucketField field.1, encodeIntBuffer n (intTag w))])
      | .uintV w n =>
        (acc.1, acc.2 ++ [(toBucketField field.1, encodeUintBuffer n (uintTag w))])
      | .timeV t => (acc.1, acc.2 ++ [(toBucketField field.1, encodeTimeBuffer t)])
      | .msg bs => (acc.1, acc.2 ++ [(toBucketField field.1, encodeMessageBuffer bs)])
      | .strMap m => (encodeRawMap acc.1 (toBucketField field.1) m, acc.2)
      | .unsupported _ => acc)
    (bucket, [])

/-- reflectProtoMsg (source lines 427 to 439): resolve the named field on the
introspected prototype shape and require that its declared type satisfies the
message contract; a missing field or a non message declared type is a
descriptive error. The source also allocates the message instance to decode
into, which the model leaves implicit. -/
def reflectProtoMsg (shape : Shape) (fieldName : String) : Except String Unit :=
  match lookupA shape fieldName with
  | none => .error ("field " ++ fieldName ++ " not found in object")
  | some k =>
    if k = FieldKind.messageK then .ok ()
    else .error ("field " ++ fieldName ++ " type not match in object")

/-- reflectMapMsg (source lines 441 to 455): read the nested sub-bucket of the
given bucket field into a string map; an absent sub-bucket yields no value
(the enumeration of an existing sub-bucket never errors, so the error result
of the source is always nil and the model drops it). -/
def reflectMapMsg (bucket : RecordBucket) (bucketField : String) :
    Option FieldValue :=
  match lookupA bucket.nested bucketField with
  | none => none
  | some entries => some (.strMap entries)

/-- getFieldObject (source lines 457 to 495): the single field read. Fetch the
flat entry under the mapped bucket key; an empty fetch (missing key or the key
naming a sub-bucket, for which bolt Get returns nil) falls back to the nested
sub-bucket via reflectMapMsg; otherwise dispatch on the first byte of the
buffer: recognized scalar tags decode (their decode errors are discarded by
the source), the protobuf tag first resolves the field on the prototype shape
via reflectProtoMsg and propagates its error, and an unrecognized tag byte is
logged and yields no value and no error. -/
def getFieldObject (bucket : RecordBucket) (shape : Shape) (field : String) :
    Except String (Option FieldValue) :=
  match lookupA bucket.flat (toBucketField field) with
  | none => .ok (reflectMapMsg bucket (toBucketField field))
  | some valueBytes =>
    match valueBytes with
    | [] => .ok (reflectMapMsg bucket (toBucketField field))
    | typByte :: _ =>
      if typByte = typeString then
        .ok (some (FieldValue.str (decodeStringBuffer valueBytes)))
      else if typByte = typeBool then
        .ok (some (FieldValue.boolV (decodeBoolBuffer valueBytes)))
      else if typByte = typeTime then
        .ok (some (FieldValue.timeV (decodeTimeBuffer valueBytes)))
      else if typByte = typeProtobuf then
        match reflectProtoMsg shape field with
        | .error e => .error e
        | .ok _ => .ok (some (decodeMessageBuffer valueBytes))
      else if typByte = typeInt ∨ typByte = typeInt8 ∨ typByte = typeInt16 ∨
          typByte = typeInt32 ∨ typByte = typeInt64 then
        .ok (some (decodeIntBuffer valueBytes typByte))
      else if typByte = typeUint ∨ typByte = typeUint8 ∨ typByte = typeUint16 ∨
          typByte = typeUint32 ∨ typByte = typeUint64 then
        .ok (some (decodeUintBuffer valueBytes typByte))
      else
        .ok none

/-- Boolean mirror of the tag dispatch of getFieldObject: whether a first byte
is one of the recognized type tags. -/
def recognizedTag (b : Nat) : Bool :=
  decide (b = typeString) || decide (b = typeBool) || decide (b = typeTime) ||
  decide (b = typeProtobuf) ||
  decide (b = typeInt ∨ b = typeInt8 ∨ b = typeInt16 ∨ b = typeInt32 ∨ b = typeInt64) ||
  decide (b = typeUint ∨ b = typeUint8 ∨ b = typeUint16 ∨ b = typeUint32 ∨ b = typeUint64)

/-- Modelled from the spec (section 4.3): the zero value a field keeps when
deserialize finds neither a flat entry nor a nested bucket for it. -/
def zeroValue : FieldKind → FieldValue
  | .stringK => .str ""
  | .boolK => .boolV false
  | .intK w => .intV w 0
  | .uintK w => .uintV w 0
  | .mapK => .strMap []
  | .messageK => .msg []
  | .timeK => .timeV 0

/-- Modelled from the spec (section 4.3): deserialize walks every field of the
destination shape and resolves it with the same flat-then-nested lookup as the
single field read, leaving fields with no value at their zero value; a field
read error aborts. -/
def deserializeFields (bucket : RecordBucket) (shape : Shape) :
    List (String × FieldKind) → Except String Record
  | [] => .ok []
  | (f, k) :: rest =>
    match getFieldObject bucket shape f with
    | .error e => .error e
    | .ok v =>
      match deserializeFields bucket shape rest with
      | .error e => .error e
      | .ok r => .ok ((f, v.getD (zeroValue k)) :: r)

/-- Modelled from the spec (section 4.3): deserialize a whole record bucket
into a fresh instance of the destination shape. -/
def deserializeObject (bucket : RecordBucket) (shape : Shape) :
    Except String Record :=
  deserializeFields bucket shape shape

/-! ## Bucket store engine operations -/

/-- The record bucket a save produces: serialization of the record into a
fresh bucket (the source creates the bucket, lets serializeObject write the
nested buckets into it, then Puts each returned flat buffer). -/
def savedBucket (value : Record) : RecordBucket :=
  let sr := serializeObject emptyRecordBucket value
  sr.2.foldl (fun b kv => putFlat b kv.1 kv.2) sr.1

/-- SaveValue (source lines 314 to 351): in one write transaction, create the
type bucket if needed, delete the record bucket under the key if present,
create a fresh one and serialize the record into it. -/
def saveValue (store : Store) (typ key : String) (value : Record) : Store :=
  let typBucket := (lookupA store typ).getD []
  insertA store typ (eraseA typBucket key ++ [(key, savedBucket value)])

/-- getBucket (source lines 588 to 594): navigate to the record bucket of a
key, none when the type bucket or the record bucket is absent. -/
def getBucket (store : Store) (typ key : String) : Option RecordBucket :=
  match lookupA store typ with
  | none => none
  | some bucket => lookupA bucket key

/-- loadValues (source lines 365 to 378): for each requested key, skip it when
its record bucket is absent, otherwise deserialize and bind it in the result;
a deserialize error aborts. -/
def loadValuesGo (store : Store) (typ : String) (shape : Shape) :
    List String → Except String (List (String × Record))
  | [] => .ok []
  | key :: rest =>
    match getBucket store typ key with
    | none => loadValuesGo store typ shape rest
    | some bucket =>
      match deserializeObject bucket shape with
      | .error e => .error e
      | .ok obj =>
        match loadValuesGo store typ shape rest with
        | .error e => .error e
        | .ok vs => .ok ((key, obj) :: vs)

/-- LoadValues (source lines 354 to 363): read transaction over loadValues; an
empty key set short circuits to the empty result. -/
def loadValues (store : Store) (typ : String) (keys : List String)
    (shape : Shape) : Except String (List (String × Record)) :=
  loadValuesGo store typ shape keys

/-- matchObject (source lines 497 to 517), inner loop: read each requested
field with getFieldObject, propagate its error, skip a field that resolves to
no value, and otherwise bind it in the mapping handed to the predicate. -/
def collectFieldValues (bucket : RecordBucket) (shape : Shape) :
    List String → Except String (List (String × FieldValue))
  | [] => .ok []
  | f :: rest =>
    match getFieldObject bucket shape f with
    | .error e => .error e
    | .ok v =>
      match collectFieldValues bucket shape rest with
      | .error e => .error e
      | .ok r =>
        match v with
        | none => .ok r
        | some x => .ok ((f, x) :: r)

/-- matchObject (source lines 497 to 517): an empty field list or a nil
predicate means every record matches; otherwise the predicate decides on the
collected field values. -/
def matchObject (bucket : RecordBucket) (fields : List String) (shape : Shape)
    (filter : Option (List (String × FieldValue) → Bool)) :
    Except String Bool :=
  if fields.isEmpty then .ok true
  else
    match filter with
    | none => .ok true
    | some flt =>
      match collectFieldValues bucket shape fields with
      | .error e => .error e
      | .ok fvs => .ok (flt fvs)

/-- loadValuesByFilter (source lines 390 to 425), per key loop: for every
record bucket under the type bucket, evaluate matchObject; a mismatch skips
the key, a match deserializes fully and binds the record under its key; errors
of either phase abort. The source enumerates the keys of the type bucket and
refetches each record bucket; bucket keys are unique, so walking the entries
directly is the same. -/
def loadValuesByFilterGo (fields : List String) (shape : Shape)
    (filter : Option (List (String × FieldValue) → Bool)) :
    TypeBucket → Except String (List (String × Record))
  | [] => .ok []
  | (key, bucket) :: rest =>
    match matchObject bucket fields shape filter with
    | .error e => .error e
    | .ok false => loadValuesByFilterGo fields shape filter rest
    | .ok true =>
      match deserializeObject bucket shape with
      | .error e => .error e
      | .ok obj =>
        match loadValuesByFilterGo fields shape filter rest with
        | .error e => .error e
        | .ok vs => .ok ((key, obj) :: vs)

/-- LoadValuesByFilter (source lines 381 to 425): a missing type bucket yields
the empty result. -/
def loadValuesByFilter (store : Store) (typ : String) (fields : List String)
    (shape : Shape) (filter : Option (List (String × FieldValue) → Bool)) :
    Except String (List (String × Record)) :=
  match lookupA store typ with
  | none => .ok []
  | some tb => loadValuesByFilterGo fields shape filter tb

/-- LoadValuesAll (source lines 710 to 740), per key loop: deserialize every
record bucket under the type bucket. -/
def loadValuesAllGo (shape : Shape) :
    TypeBucket → Except String (List (String × Record))
  | [] => .ok []
  | (key, bucket) :: rest =>
    match deserializeObject bucket shape with
    | .error e => .error e
    | .ok obj =>
      match loadValuesAllGo shape rest with
      | .error e => .error e
      | .ok vs => .ok ((key, obj) :: vs)

/-- LoadValuesAll (source lines 710 to 740): a missing type bucket yields the
empty result. -/
def loadValuesAll (store : Store) (typ : String) (shape : Shape) :
    Except String (List (String × Record)) :=
  match lookupA store typ with
  | none => .ok []
  | some tb => loadValuesAllGo shape tb

/-- CountValues (source lines 638 to 651): count the direct children of the
type bucket; a missing type bucket counts zero. The transaction of the source
can only return the error of its ForEach callback, which is always nil, so
the model is total. -/
def countValues (store : Store) (typ : String) : Nat :=
  match lookupA store typ with
  | none => 0
  | some tb => tb.length

/-- deleteValues (source lines 571 to 586): a missing type bucket is a no-op;
each named record bucket is deleted when present and ignored when absent. -/
def deleteValuesGo (store : Store) (typ : String) (keys : List String) : Store :=
  match lookupA store typ with
  | none => store
  | some tb => insertA store typ (keys.foldl (fun b k => eraseA b k) tb)

/-- DeleteValues (source lines 562 to 569): an empty key set short circuits;
otherwise one write transaction over deleteValues. -/
def deleteValues (store : Store) (typ : String) (keys : List String) : Store :=
  if keys.isEmpty then store else deleteValuesGo store typ keys

/-- Whether a runtime value is of one of the kinds the UpdateValue dispatch
writes (string, bool, signed or unsigned integer, string map, protobuf
message pointer, timestamp). -/
def isSupported : FieldValue → Bool
  | .unsupported _ => false
  | _ => true

/-- UpdateValue (source lines 654 to 707), per property step: dispatch on the
runtime kind of the supplied value, tag-encode it and overwrite that field
entry alone; a string map rewrites the nested sub-bucket via encodeRawMap; a
value of unsupported runtime kind writes nothing. -/
def applyProperty (bucket : RecordBucket) (propKey : String)
    (propValue : FieldValue) : RecordBucket :=
  let bucketKey := toBucketField propKey
  match propValue with
  | .str s => putFlat bucket bucketKey (encodeStringBuffer s)
  | .boolV b => putFlat bucket bucketKey (encodeBoolBuffer b)
  | .intV w n => putFlat bucket bucketKey (encodeIntBuffer n (intTag w))
  | .uintV w n => putFlat bucket bucketKey (encodeUintBuffer n (uintTag w))
  | .strMap m => encodeRawMap bucket bucketKey m
  | .msg bs => putFlat bucket bucketKey (encodeMessageBuffer bs)
  | .timeV t => putFlat bucket bucketKey (encodeTimeBuffer t)
  | .unsupported _ => bucket

/-- UpdateValue (source lines 654 to 707): in one write transaction, a missing
type bucket or record bucket is a silent no-op, an empty property map is a
no-op, and otherwise every property is applied in turn to the record bucket.
Engine Put errors and protobuf marshalling errors are not modelled, so the
result is always ok; the Except shape mirrors the source signature. -/
def updateValue (store : Store) (typ key : String)
    (props : List (String × FieldValue)) : Except String Store :=
  match lookupA store typ with
  | none => .ok store
  | some tb =>
    match lookupA tb key with
    | none => .ok store
    | some bucket =>
      if props.isEmpty then .ok store
      else
        .ok (insertA store typ (insertA tb key
          (props.foldl (fun b p => applyProperty b p.1 p.2) bucket)))

/-- Whether an operation result is an error. -/
def exceptIsError {α : Type} : Except String α → Bool
  | .error _ => true
  | .ok _ => false

/-- The entries of the type bucket of a type (empty when the type bucket is
absent). -/
def typeEntries (store : Store) (typ : String) : TypeBucket :=
  (lookupA store typ).getD []

/-- The record keys present under a type. -/
def typeKeys (store : Store) (typ : String) : List String :=
  (typeEntries store typ).map Prod.fst

/-- Fold a list of keyed records into the store with saveValue, modelling a
sequence of save calls. -/
def saveList (store : Store) (typ : String) : List (String × Record) → Store
  | [] => store
  | (k, r) :: rest => saveList (saveValue store typ k r) typ rest

/-! ## Concrete data for witnesses -/

/-- A concrete record used by the witnesses. -/
def demoRecord : Record :=
  [("Name", FieldValue.str "X"), ("Flag", FieldValue.boolV true),
   ("Tags", FieldValue.strMap [("k1", "v1")])]

/-- The prototype shape of demoRecord. -/
def demoShape : Shape :=
  [("Name", FieldKind.stringK), ("Flag", FieldKind.boolK),
   ("Tags", FieldKind.mapK)]

/-- A store holding demoRecord under type svc and key a. -/
def demoStore : Store := saveValue emptyStore "svc" "a" demoRecord

/-- A second concrete record. -/
def demoRecordB : Record := [("Name", FieldValue.str "Z")]

/-! ## Association list lemmas -/

theorem lookupA_insertA_self {α : Type} (l : List (String × α)) (k : String)
    (v : α) : lookupA (insertA l k v) k = some v := by
  induction l with
  | nil => simp [insertA, lookupA]
  | cons p rest ih =>
    obtain ⟨k0, w⟩ := p
    by_cases h : k0 = k
    · simp [insertA, lookupA, h]
    · simp [insertA, lookupA, h, ih]

theorem lookupA_insertA_ne {α : Type} (l : List (String × α)) {kw k : String}
    (v : α) (h : kw ≠ k) : lookupA (insertA l kw v) k = lookupA l k := by
  induction l with
  | nil => simp [insertA, lookupA, h]
  | cons p rest ih =>
    obtain ⟨k0, w⟩ := p
    by_cases h0 : k0 = kw
    · subst h0; simp [insertA, lookupA, h]
    · simp only [insertA, if_neg h0]
      by_cases h1 : k0 = k
      · simp [lookupA, h1]
      · simp [lookupA, h1, ih]

theorem insertA_of_lookupA {α : Type} (l : List (String × α)) {k : String}
    {v : α} (h : lookupA l k = some v) : insertA l k v = l := by
  induction l with
  | nil => simp [lookupA] at h
  | cons p rest ih =>
    obtain ⟨k0, w⟩ := p
    by_cases h0 : k0 = k
    · subst h0
      simp [lookupA] at h
      simp [insertA, h]
    · simp [lookupA, h0] at h
      simp [insertA, h0, ih h]

theorem lookupA_eraseA_self {α : Type} (l : List (String × α)) (k : String) :
    lookupA (eraseA l k) k = none := by
  induction l with
  | nil => simp [eraseA, lookupA]
  | cons p rest ih =>
    obtain ⟨k0, w⟩ := p
    by_cases h0 : k0 = k
    · simp [eraseA, h0, ih]
    · simp [eraseA, lookupA, h0, ih]

theorem eraseA_of_lookupA_none {α : Type} (l : List (String × α)) {k : String}
    (h : lookupA l k = none) : eraseA l k = l := by
  induction l with
  | nil => simp [eraseA]
  | cons p rest ih =>
    obtain ⟨k0, w⟩ := p
    by_cases h0 : k0 = k
    · simp [lookupA, h0] at h
    · simp [lookupA, h0] at h
      simp [eraseA, h0, ih h]

theorem lookupA_append_of_none {α : Type} (l1 l2 : List (String × α))
    {k : String} (h : lookupA l1 k = none) :
    lookupA (l1 ++ l2) k = lookupA l2 k := by
  induction l1 with
  | nil => simp
  | cons p rest ih =>
    obtain ⟨k0, w⟩ := p
    by_cases h0 : k0 = k
    · simp [lookupA, h0] at h
    · simp [lookupA, h0] at h ⊢
      exact ih h

theorem lookupA_eq_none_of_not_mem {α : Type} (l : List (String × α))
    {k : String} (h : k ∉ l.map Prod.fst) : lookupA l k = none := by
  induction l with
  | nil => simp [lookupA]
  | cons p rest ih =>
    obtain ⟨k0, w⟩ := p
    simp only [List.map_cons, List.mem_cons, not_or] at h
    have h0 : k0 ≠ k := fun hk => h.1 hk.symm
    simp [lookupA, h0, ih h.2]

theorem length_eraseA_of_mem {α : Type} (l : List (String × α)) {k : String}
    (hn : (l.map Prod.fst).Nodup) (hm : k ∈ l.map Prod.fst) :
    (eraseA l k).length + 1 = l.length := by
  induction l with
  | nil => simp at hm
  | cons p rest ih =>
    obtain ⟨k0, w⟩ := p
    simp only [List.map_cons, List.nodup_cons] at hn
    by_cases h0 : k0 = k
    · subst h0
      have : lookupA rest k0 = none := lookupA_eq_none_of_not_mem rest hn.1
      simp [eraseA, eraseA_of_lookupA_none rest this]
    · simp only [List.map_cons, List.mem_cons] at hm
      rcases hm with hm | hm
      · exact absurd hm.symm h0
      · simp only [eraseA, if_neg h0, List.length_cons]
        rw [← ih hn.2 hm]

theorem mem_map_fst_eraseA {α : Type} (l : List (String × α))
    {kw k : String} (h : kw ≠ k) :
    kw ∈ (eraseA l k).map Prod.fst ↔ kw ∈ l.map Prod.fst := by
  induction l with
  | nil => simp [eraseA]
  | cons p rest ih =>
    obtain ⟨k0, w⟩ := p
    by_cases h0 : k0 = k
    · subst h0
      simp only [eraseA, if_pos rfl, List.map_cons, List.mem_cons]
      constructor
      · intro hm; exact Or.inr (ih.mp hm)
      · rintro (hm | hm)
        · exact absurd hm h
        · exact ih.mpr hm
    · simp only [eraseA, if_neg h0, List.map_cons, List.mem_cons]
      constructor
      · rintro (hm | hm)
        · exact Or.inl hm
        · exact Or.inr (ih.mp hm)
      · rintro (hm | hm)
        · exact Or.inl hm
        · exact Or.inr (ih.mpr hm)

theorem foldl_applyProperty_filter (props : List (String × FieldValue))
    (b : RecordBucket) :
    props.foldl (fun b p => applyProperty b p.1 p.2) b =
      (props.filter (fun p => isSupported p.2)).foldl
        (fun b p => applyProperty b p.1 p.2) b := by
  induction props generalizing b with
  | nil => rfl
  | cons p rest ih =>
    obtain ⟨k, v⟩ := p
    cases hv : isSupported v with
    | true =>
      rw [List.filter_cons_of_pos (by simpa using hv)]
      simp only [List.foldl_cons]
      exact ih _
    | false =>
      have hvv : applyProperty b k v = b := by
        cases v with
        | unsupported t => rfl
        | str s => exact absurd hv (by simp [isSupported])
        | boolV bb => exact absurd hv (by simp [isSupported])
        | intV w n => exact absurd hv (by simp [isSupported])
        | uintV w n => exact absurd hv (by simp [isSupported])
        | strMap m => exact absurd hv (by simp [isSupported])
        | msg bs => exact absurd hv (by simp [isSupported])
        | timeV t => exact absurd hv (by simp [isSupported])
      rw [List.filter_cons_of_neg (by simp [hv])]
      simp only [List.foldl_cons, hvv]
      exact ih b

theorem matchObject_trivial (bucket : RecordBucket) (fields : List String)
    (shape : Shape) (filter : Option (List (String × FieldValue) → Bool))
    (h : fields = [] ∨ filter = none) :
    matchObject bucket fields shape filter = .ok true := by
  rcases h with h | h
  · subst h; rfl
  · subst h
    unfold matchObject
    by_cases hf : fields.isEmpty
    · rw [if_pos hf]
    · rw [if_neg hf]

theorem loadValuesByFilterGo_eq_all (fields : List String) (shape : Shape)
    (filter : Option (List (String × FieldValue) → Bool))
    (h : fields = [] ∨ filter = none) (tb : TypeBucket) :
    loadValuesByFilterGo fields shape filter tb = loadValuesAllGo shape tb := by
  induction tb with
  | nil => rfl
  | cons p rest ih =>
    obtain ⟨key, bucket⟩ := p
    unfold loadValuesByFilterGo loadValuesAllGo
    simp only [matchObject_trivial bucket fields shape filter h, ih]

theorem map_fst_eraseA_nodup {α : Type} (l : List (String × α)) (k : String)
    (hn : (l.map Prod.fst).Nodup) : ((eraseA l k).map Prod.fst).Nodup := by
  induction l with
  | nil => simp [eraseA]
  | cons p rest ih =>
    obtain ⟨k0, w⟩ := p
    simp only [List.map_cons, List.nodup_cons] at hn
    by_cases h0 : k0 = k
    · simp only [eraseA, if_pos h0]
      exact ih hn.2
    · simp only [eraseA, if_neg h0, List.map_cons, List.nodup_cons]
      refine ⟨?_, ih hn.2⟩
      intro hmem
      by_cases hk : k0 = k
      · exact h0 hk
      · exact hn.1 ((mem_map_fst_eraseA rest hk).mp hmem)

theorem lookupA_cons_self {α : Type} (l : List (String × α)) (k : String)
    (v : α) : lookupA ((k, v) :: l) k = some v := by
  simp [lookupA]

theorem lookupA_cons_ne {α : Type} (l : List (String × α)) {k0 k : String}
    (v : α) (h : k0 ≠ k) : lookupA ((k0, v) :: l) k = lookupA l k := by
  simp [lookupA, h]

theorem applyProperty_preserves (b : RecordBucket) (pk : String)
    (pv : FieldValue) {k : String} (h : toBucketField pk ≠ k) :
    lookupA (applyProperty b pk pv).flat k = lookupA b.flat k ∧
    lookupA (applyProperty b pk pv).nested k = lookupA b.nested k := by
  cases pv with
  | str s => exact ⟨lookupA_insertA_ne b.flat _ h, rfl⟩
  | boolV bb => exact ⟨lookupA_insertA_ne b.flat _ h, rfl⟩
  | intV w n => exact ⟨lookupA_insertA_ne b.flat _ h, rfl⟩
  | uintV w n => exact ⟨lookupA_insertA_ne b.flat _ h, rfl⟩
  | timeV t => exact ⟨lookupA_insertA_ne b.flat _ h, rfl⟩
  | msg bs => exact ⟨lookupA_insertA_ne b.flat _ h, rfl⟩
  | unsupported t => exact ⟨rfl, rfl⟩
  | strMap m =>
    show lookupA (encodeRawMap b (toBucketField pk) m).flat k = lookupA b.flat k ∧
      lookupA (encodeRawMap b (toBucketField pk) m).nested k = lookupA b.nested k
    unfold encodeRawMap
    by_cases hm : m.isEmpty
    · rw [if_pos hm]; exact ⟨rfl, rfl⟩
    · rw [if_neg hm]
      exact ⟨rfl, lookupA_insertA_ne b.nested _ h⟩

theorem foldProps_preserves (props : List (String × FieldValue))
    (b : RecordBucket) {k : String}
    (h : ∀ p ∈ props, toBucketField p.1 ≠ k) :
    lookupA (props.foldl (fun b p => applyProperty b p.1 p.2) b).flat k =
      lookupA b.flat k ∧
    lookupA (props.foldl (fun b p => applyProperty b p.1 p.2) b).nested k =
      lookupA b.nested k := by
  induction props generalizing b with
  | nil => exact ⟨rfl, rfl⟩
  | cons p rest ih =>
    obtain ⟨pk, pv⟩ := p
    have hp : toBucketField pk ≠ k := h (pk, pv) (List.mem_cons_self _ _)
    have hrest : ∀ q ∈ rest, toBucketField q.1 ≠ k := fun q hq =>
      h q (List.mem_cons_of_mem _ hq)
    simp only [List.foldl_cons]
    have h1 := applyProperty_preserves b pk pv hp
    have h2 := ih (applyProperty b pk pv) hrest
    exact ⟨h2.1.trans h1.1, h2.2.trans h1.2⟩

theorem getFieldObject_congr (b1 b2 : RecordBucket) (shape : Shape)
    (field : String)
    (hf : lookupA b1.flat (toBucketField field) =
      lookupA b2.flat (toBucketField field))
    (hn : lookupA b1.nested (toBucketField field) =
      lookupA b2.nested (toBucketField field)) :
    getFieldObject b1 shape field = getFieldObject b2 shape field := by
  unfold getFieldObject reflectMapMsg
  rw [hf, hn]

theorem loadValuesGo_spec (store : Store) (typ : String) (shape : Shape) :
    ∀ keys : List String,
    (∀ key ∈ keys, ∀ b, getBucket store typ key = some b →
      exceptIsError (deserializeObject b shape) = false) →
    ∃ vs, loadValuesGo store typ shape keys = .ok vs ∧
      ∀ key r, lookupA vs key = some r ↔
        key ∈ keys ∧ ∃ b, getBucket store typ key = some b ∧
          deserializeObject b shape = .ok r := by
  intro keys
  induction keys with
  | nil =>
    intro _
    exact ⟨[], rfl, by intro key r; simp [lookupA]⟩
  | cons key0 rest ih =>
    intro h
    have hrest : ∀ key ∈ rest, ∀ b, getBucket store typ key = some b →
        exceptIsError (deserializeObject b shape) = false :=
      fun key hk => h key (List.mem_cons_of_mem _ hk)
    obtain ⟨vs, hvs, hiff⟩ := ih hrest
    cases hb : getBucket store typ key0 with
    | none =>
      refine ⟨vs, by simp only [loadValuesGo, hb, hvs], ?_⟩
      intro key r
      rw [hiff key r]
      constructor
      · rintro ⟨hk, hrec⟩
        exact ⟨List.mem_cons_of_mem _ hk, hrec⟩
      · rintro ⟨hk, b, hbb, hd⟩
        rcases List.mem_cons.mp hk with he | hm
        · subst he
          rw [hb] at hbb
          exact Option.noConfusion hbb
        · exact ⟨hm, b, hbb, hd⟩
    | some b =>
      have hde := h key0 (List.mem_cons_self _ _) b hb
      cases hd : deserializeObject b shape with
      | error e =>
        rw [hd] at hde
        exact Bool.noConfusion hde
      | ok r0 =>
        refine ⟨(key0, r0) :: vs,
          by simp only [loadValuesGo, hb, hd, hvs], ?_⟩
        intro key r
        by_cases hk : key0 = key
        · subst hk
          rw [lookupA_cons_self]
          constructor
          · intro hsome
            injection hsome with hsome
            subst hsome
            exact ⟨List.mem_cons_self _ _, b, hb, hd⟩
          · rintro ⟨-, b2, hb2, hd2⟩
            rw [hb] at hb2
            injection hb2 with hb2
            subst hb2
            rw [hd] at hd2
            injection hd2 with hd2
            rw [hd2]
        · rw [lookupA_cons_ne vs r0 hk]
          rw [hiff key r]
          constructor
          · rintro ⟨hm, hrec⟩
            exact ⟨List.mem_cons_of_mem _ hm, hrec⟩
          · rintro ⟨hm, hrec⟩
            rcases List.mem_cons.mp hm with he | hm2
            · exact absurd he.symm hk
            · exact ⟨hm2, hrec⟩

theorem collect_mem (bucket : RecordBucket) (shape : Shape) :
    ∀ (fields : List String) (fvs : List (String × FieldValue)),
    collectFieldValues bucket shape fields = .ok fvs →
    ∀ f v, (f, v) ∈ fvs ↔
      f ∈ fields ∧ getFieldObject bucket shape f = .ok (some v) := by
  intro fields
  induction fields with
  | nil =>
    intro fvs h f v
    injection h with h
    subst h
    simp
  | cons f0 rest ih =>
    intro fvs h f v
    cases hg : getFieldObject bucket shape f0 with
    | error e =>
      simp only [collectFieldValues, hg] at h
      exact Except.noConfusion h
    | ok ov =>
      cases hr : collectFieldValues bucket shape rest with
      | error e =>
        simp only [collectFieldValues, hg, hr] at h
        exact Except.noConfusion h
      | ok rvs =>
        cases ov with
        | none =>
          simp only [collectFieldValues, hg, hr] at h
          injection h with h
          subst h
          rw [ih rvs hr f v]
          constructor
          · rintro ⟨hm, hgg⟩
            exact ⟨List.mem_cons_of_mem _ hm, hgg⟩
          · rintro ⟨hm, hgg⟩
            rcases List.mem_cons.mp hm with he | hm2
            · subst he
              rw [hg] at hgg
              injection hgg with hgg
              exact Option.noConfusion hgg
            · exact ⟨hm2, hgg⟩
        | some x =>
          simp only [collectFieldValues, hg, hr] at h
          injection h with h
          subst h
          constructor
          · intro hm
            rcases List.mem_cons.mp hm with he | hm2
            · simp only [Prod.mk.injEq] at he
              obtain ⟨hk, hv⟩ := he
              subst hk
              subst hv
              exact ⟨List.mem_cons_self _ _, hg⟩
            · obtain ⟨hm3, hgg⟩ := (ih rvs hr f v).mp hm2
              exact ⟨List.mem_cons_of_mem _ hm3, hgg⟩
          · rintro ⟨hm, hgg⟩
            rcases List.mem_cons.mp hm with he | hm2
            · subst he
              rw [hg] at hgg
              injection hgg with hgg
              injection hgg with hgg
              rw [← hgg]
              exact List.mem_cons_self _ _
            · exact List.mem_cons_of_mem _ ((ih rvs hr f v).mpr ⟨hm2, hgg⟩)

theorem lvbfGo_mem (fields : List String) (shape : Shape)
    (p : List (String × FieldValue) → Bool) :
    ∀ (tb : TypeBucket) (vs : List (String × Record)),
    loadValuesByFilterGo fields shape (some p) tb = .ok vs →
    ∀ key r, (key, r) ∈ vs ↔ ∃ b, (key, b) ∈ tb ∧
      matchObject b fields shape (some p) = .ok true ∧
      deserializeObject b shape = .ok r := by
  intro tb
  induction tb with
  | nil =>
    intro vs hvs key r
    injection hvs with h
    subst h
    simp
  | cons q rest ih =>
    obtain ⟨k0, b0⟩ := q
    intro vs hvs key r
    cases hm : matchObject b0 fields shape (some p) with
    | error e =>
      simp only [loadValuesByFilterGo, hm] at hvs
      exact Except.noConfusion hvs
    | ok mb =>
      cases mb with
      | false =>
        simp only [loadValuesByFilterGo, hm] at hvs
        rw [ih vs hvs key r]
        constructor
        · rintro ⟨b, hmem, hmatch, hd⟩
          exact ⟨b, List.mem_cons_of_mem _ hmem, hmatch, hd⟩
        · rintro ⟨b, hmem, hmatch, hd⟩
          rcases List.mem_cons.mp hmem with he | hmem2
          · simp only [Prod.mk.injEq] at he
            obtain ⟨hk, hb⟩ := he
            rw [hb] at hmatch
            rw [hm] at hmatch
            injection hmatch with hmatch
            exact Bool.noConfusion hmatch
          · exact ⟨b, hmem2, hmatch, hd⟩
      | true =>
        cases hd : deserializeObject b0 shape with
        | error e =>
          simp only [loadValuesByFilterGo, hm, hd] at hvs
          exact Except.noConfusion hvs
        | ok r0 =>
          cases hrest : loadValuesByFilterGo fields shape (some p) rest with
          | error e =>
            simp only [loadValuesByFilterGo, hm, hd, hrest] at hvs
            exact Except.noConfusion hvs
          | ok vs0 =>
            simp only [loadValuesByFilterGo, hm, hd, hrest] at hvs
            injection hvs with hvs
            subst hvs
            constructor
            · intro hmem
              rcases List.mem_cons.mp hmem with he | hmem2
              · simp only [Prod.mk.injEq] at he
                obtain ⟨hk, hr⟩ := he
                subst hk
                refine ⟨b0, List.mem_cons_self _ _, hm, ?_⟩
                rw [hd, hr]
              · obtain ⟨b, hb, hmatch, hdd⟩ := (ih vs0 hrest key r).mp hmem2
                exact ⟨b, List.mem_cons_of_mem _ hb, hmatch, hdd⟩
            · rintro ⟨b, hmem, hmatch, hdd⟩
              rcases List.mem_cons.mp hmem with he | hmem2
              · simp only [Prod.mk.injEq] at he
                obtain ⟨hk, hb⟩ := he
                subst hk
                rw [hb] at hdd
                rw [hd] at hdd
                injection hdd with hdd
                rw [← hdd]
                exact List.mem_cons_self _ _
              · exact List.mem_cons_of_mem _
                  ((ih vs0 hrest key r).mpr ⟨b, hmem2, hmatch, hdd⟩)

theorem matchObject_ne_true_of_false_pred (b : RecordBucket)
    (fields : List String) (shape : Shape)
    (p : List (String × FieldValue) → Bool) (hf : fields ≠ [])
    (hp : ∀ m, p m = false) :
    matchObject b fields shape (some p) ≠ .ok true := by
  intro hcontra
  have hne : fields.isEmpty = false := by
    cases fields with
    | nil => exact absurd rfl hf
    | cons _ _ => rfl
  simp only [matchObject, hne, Bool.false_eq_true, if_false] at hcontra
  cases hc : collectFieldValues b shape fields with
  | error e =>
    rw [hc] at hcontra
    exact Except.noConfusion hcontra
  | ok fvs =>
    rw [hc] at hcontra
    injection hcontra with hcontra
    rw [hp fvs] at hcontra
    exact Bool.noConfusion hcontra

theorem lvbfGo_false_pred (fields : List String) (shape : Shape)
    (p : List (String × FieldValue) → Bool) (hf : fields ≠ [])
    (hp : ∀ m, p m = false) :
    ∀ (tb : TypeBucket) (vs : List (String × Record)),
    loadValuesByFilterGo fields shape (some p) tb = .ok vs → vs = [] := by
  intro tb
  induction tb with
  | nil =>
    intro vs hvs
    injection hvs with h
    exact h.symm
  | cons q rest ih =>
    obtain ⟨k0, b0⟩ := q
    intro vs hvs
    cases hm : matchObject b0 fields shape (some p) with
    | error e =>
      simp only [loadValuesByFilterGo, hm] at hvs
      exact Except.noConfusion hvs
    | ok mb =>
      cases mb with
      | false =>
        simp only [loadValuesByFilterGo, hm] at hvs
        exact ih vs hvs
      | true =>
        exact absurd hm (matchObject_ne_true_of_false_pred b0 fields shape p hf hp)

theorem getBucket_eq_none_of_not_mem (store : Store) (typ : String)
    {key : String} (h : key ∉ typeKeys store typ) :
    getBucket store typ key = none := by
  unfold typeKeys typeEntries at h
  unfold getBucket
  cases ht : lookupA store typ with
  | none => rfl
  | some tb =>
    rw [ht] at h
    simp only [Option.getD_some] at h
    exact lookupA_eq_none_of_not_mem tb h

theorem countValues_saveValue_fresh (store : Store) (typ key : String)
    (r : Record) (h : getBucket store typ key = none) :
    countValues (saveValue store typ key r) typ = countValues store typ + 1 := by
  unfold getBucket at h
  unfold countValues saveValue
  rw [lookupA_insertA_self]
  cases ht : lookupA store typ with
  | none => rfl
  | some tb =>
    rw [ht] at h
    simp only [Option.getD_some] at h ⊢
    rw [eraseA_of_lookupA_none tb h]
    simp

theorem typeKeys_saveValue_fresh (store : Store) (typ key : String)
    (r : Record) (h : getBucket store typ key = none) :
    typeKeys (saveValue store typ key r) typ = typeKeys store typ ++ [key] := by
  unfold getBucket at h
  unfold typeKeys typeEntries saveValue
  rw [lookupA_insertA_self]
  cases ht : lookupA store typ with
  | none => rfl
  | some tb =>
    rw [ht] at h
    simp only [Option.getD_some] at h ⊢
    rw [eraseA_of_lookupA_none tb h]
    simp

theorem saveList_fresh (typ : String) :
    ∀ (kvs : List (String × Record)) (store : Store),
    (kvs.map Prod.fst).Nodup →
    (∀ k ∈ kvs.map Prod.fst, k ∉ typeKeys store typ) →
    countValues (saveList store typ kvs) typ =
      countValues store typ + kvs.length ∧
    typeKeys (saveList store typ kvs) typ =
      typeKeys store typ ++ kvs.map Prod.fst := by
  intro kvs
  induction kvs with
  | nil => intro store _ _; exact ⟨rfl, by simp [saveList]⟩
  | cons q rest ih =>
    obtain ⟨k, r⟩ := q
    intro store hnd hfresh
    simp only [List.map_cons, List.nodup_cons] at hnd
    have hk : k ∉ typeKeys store typ := hfresh k (by simp)
    have hgb : getBucket store typ k = none :=
      getBucket_eq_none_of_not_mem store typ hk
    have hc1 := countValues_saveValue_fresh store typ k r hgb
    have ht1 := typeKeys_saveValue_fresh store typ k r hgb
    have hfresh2 : ∀ k2 ∈ rest.map Prod.fst,
        k2 ∉ typeKeys (saveValue store typ k r) typ := by
      intro k2 hk2
      rw [ht1]
      simp only [List.mem_append, List.mem_singleton]
      rintro (hin | rfl)
      · exact hfresh k2 (by simp [hk2]) hin
      · exact hnd.1 hk2
    obtain ⟨ihc, iht⟩ := ih (saveValue store typ k r) hnd.2 hfresh2
    constructor
    · show countValues (saveList (saveValue store typ k r) typ rest) typ = _
      rw [ihc, hc1]
      simp only [List.length_cons]
      omega
    · show typeKeys (saveList (saveValue store typ k r) typ rest) typ = _
      rw [iht, ht1]
      simp

theorem foldl_eraseA_length :
    ∀ (ms : List String) (tb : TypeBucket),
    (tb.map Prod.fst).Nodup → ms.Nodup →
    (∀ m ∈ ms, m ∈ tb.map Prod.fst) →
    (ms.foldl (fun b k => eraseA b k) tb).length + ms.length = tb.length := by
  intro ms
  induction ms with
  | nil => intro tb _ _ _; simp
  | cons m rest ih =>
    intro tb hnd hmsnd hsub
    simp only [List.nodup_cons] at hmsnd
    have hm : m ∈ tb.map Prod.fst := hsub m (by simp)
    have hlen := length_eraseA_of_mem tb hnd hm
    have hnd2 : ((eraseA tb m).map Prod.fst).Nodup :=
      map_fst_eraseA_nodup tb m hnd
    have hsub2 : ∀ k ∈ rest, k ∈ (eraseA tb m).map Prod.fst := by
      intro k hk
      have hkm : k ≠ m := fun he => hmsnd.1 (he ▸ hk)
      exact (mem_map_fst_eraseA tb hkm).mpr (hsub k (by simp [hk]))
    have hrec := ih (eraseA tb m) hnd2 hmsnd.2 hsub2
    simp only [List.foldl_cons, List.length_cons]
    omega

theorem countValues_deleteValues (store : Store) (typ : String)
    (ms : List String) (hnd : (typeKeys store typ).Nodup) (hms : ms.Nodup)
    (hsub : ∀ m ∈ ms, m ∈ typeKeys store typ) :
    countValues (deleteValues store typ ms) typ =
      countValues store typ - ms.length := by
  cases hmse : ms with
  | nil => simp [deleteValues]
  | cons m rest =>
    rw [← hmse]
    have hne : ms.isEmpty = false := by rw [hmse]; rfl
    unfold deleteValues
    rw [if_neg (by simp [hne])]
    unfold deleteValuesGo
    cases ht : lookupA store typ with
    | none =>
      exfalso
      have hmem := hsub m (by rw [hmse]; simp)
      unfold typeKeys typeEntries at hmem
      rw [ht] at hmem
      simp at hmem
    | some tb =>
      have hnd2 : (tb.map Prod.fst).Nodup := by
        unfold typeKeys typeEntries at hnd
        rw [ht] at hnd
        simpa using hnd
      have hsub2 : ∀ k ∈ ms, k ∈ tb.map Prod.fst := by
        intro k hk
        have := hsub k hk
        unfold typeKeys typeEntries at this
        rw [ht] at this
        simpa using this
      have hlen := foldl_eraseA_length ms tb hnd2 hms hsub2
      have hcount : countValues store typ = tb.length := by
        unfold countValues
        rw [ht]
      have hcount2 : countValues
          (insertA store typ (ms.foldl (fun b k => eraseA b k) tb)) typ =
          (ms.foldl (fun b k => eraseA b k) tb).length := by
        unfold countValues
        rw [lookupA_insertA_self]
      rw [hcount2, hcount]
      omega

/-! ## Claim theorems -/

/-- Claim C1: for every SaveValue(type, key, record), any record bucket
already present under the key is deleted and a fresh one is created before
serializing, so the stored record bucket after the save is exactly the one
produced by serializing the new record into a fresh bucket, independent of the
prior store state: no entry survives from any previous save under the same
key. -/
theorem saveValue_full_replace (store : Store) (typ key : String)
    (value : Record) :
    getBucket (saveValue store typ key value) typ key =
      some (savedBucket value) := by
  unfold saveValue getBucket
  rw [lookupA_insertA_self]
  simp only []
  rw [lookupA_append_of_none _ _ (lookupA_eraseA_self _ _)]
  simp [lookupA]

/-- Claim C4: UpdateValue on a missing type bucket or a missing record bucket
returns no error and leaves the whole store unchanged: a silent no-op, not an
upsert. -/
theorem updateValue_missing_noop (store : Store) (typ key : String)
    (props : List (String × FieldValue))
    (h : lookupA store typ = none ∨
      ∃ tb, lookupA store typ = some tb ∧ lookupA tb key = none) :
    updateValue store typ key props = .ok store := by
  rcases h with h | ⟨tb, h1, h2⟩
  · simp only [updateValue, h]
  · simp only [updateValue, h1, h2]

/-- Witness for claim C4: updating under an absent type and under an absent
key of a present type both return the store unchanged with no error. -/
theorem updateValue_missing_noop_witness :
    updateValue demoStore "other" "a" [("Name", FieldValue.str "Q")] =
      .ok demoStore ∧
    updateValue demoStore "svc" "b" [("Name", FieldValue.str "Q")] =
      .ok demoStore :=
  ⟨updateValue_missing_noop demoStore "other" "a" _ (Or.inl rfl),
   updateValue_missing_noop demoStore "svc" "b" _ (Or.inr ⟨_, rfl, rfl⟩)⟩

/-- Claim C7: a single field read of a stored value whose first byte is not
one of the recognized type tags is a soft condition: the read logs, returns no
value for that field, and produces no error. -/
theorem getFieldObject_soft_unrecognized (bucket : RecordBucket)
    (shape : Shape) (field : String) (b : Nat) (rest : List Nat)
    (hv : lookupA bucket.flat (toBucketField field) = some (b :: rest))
    (hb : recognizedTag b = false) :
    getFieldObject bucket shape field = .ok none := by
  simp only [recognizedTag, Bool.or_eq_false_iff, decide_eq_false_iff_not]
    at hb
  obtain ⟨⟨⟨⟨⟨h1, h2⟩, h3⟩, h4⟩, h5⟩, h6⟩ := hb
  simp only [getFieldObject, hv, if_neg h1, if_neg h2, if_neg h3, if_neg h4,
    if_neg h5, if_neg h6]

/-- Witness for claim C7: the byte 99 is not a recognized tag and reading the
field stored under it yields no value and no error. -/
theorem getFieldObject_soft_unrecognized_witness :
    recognizedTag 99 = false ∧
    getFieldObject ⟨[("F", [99, 7])], []⟩ [] "F" = .ok none :=
  ⟨rfl, getFieldObject_soft_unrecognized ⟨[("F", [99, 7])], []⟩ [] "F" 99 [7]
    rfl rfl⟩

/-- Claim C8: an UpdateValue property whose runtime value is of an unsupported
kind produces no written entry and no error; the result of the call is the
result of the same call with the unsupported properties dropped, so the
supported properties in the same call are still written, and the call never
errors. -/
theorem updateValue_skips_unsupported (store : Store) (typ key : String)
    (props : List (String × FieldValue)) :
    updateValue store typ key props =
      updateValue store typ key (props.filter (fun p => isSupported p.2)) ∧
    exceptIsError (updateValue store typ key props) = false := by
  constructor
  · cases ht : lookupA store typ with
    | none => simp only [updateValue, ht]
    | some tb =>
      cases hk : lookupA tb key with
      | none => simp only [updateValue, ht, hk]
      | some bucket =>
        by_cases hp : props.isEmpty
        · have hnil : props = [] := by simpa using hp
          subst hnil; rfl
        · by_cases hf : (props.filter (fun p => isSupported p.2)).isEmpty
          · have hfilter : props.filter (fun p => isSupported p.2) = [] := by
              simpa using hf
            have hfold : props.foldl (fun b p => applyProperty b p.1 p.2)
                bucket = bucket := by
              rw [foldl_applyProperty_filter, hfilter]
              rfl
            simp only [updateValue, ht, hk, if_neg hp, if_pos hf, hfold,
              insertA_of_lookupA tb hk, insertA_of_lookupA store ht]
          · simp only [updateValue, ht, hk, if_neg hp, if_neg hf]
            rw [foldl_applyProperty_filter props bucket]
  · cases ht : lookupA store typ with
    | none => simp only [updateValue, ht, exceptIsError]
    | some tb =>
      cases hk : lookupA tb key with
      | none => simp only [updateValue, ht, hk, exceptIsError]
      | some bucket =>
        by_cases hp : props.isEmpty
        · simp only [updateValue, ht, hk, if_pos hp, exceptIsError]
        · simp only [updateValue, ht, hk, if_neg hp, exceptIsError]

/-- Claim C10: LoadValuesByFilter with an empty field list or a nil predicate
treats every record under the type bucket as matching and returns exactly the
full load of all records of that type. -/
theorem loadValuesByFilter_trivial_filter (store : Store) (typ : String)
    (fields : List String) (shape : Shape)
    (filter : Option (List (String × FieldValue) → Bool))
    (h : fields = [] ∨ filter = none) :
    loadValuesByFilter store typ fields shape filter =
      loadValuesAll store typ shape := by
  unfold loadValuesByFilter loadValuesAll
  cases lookupA store typ with
  | none => rfl
  | some tb => exact loadValuesByFilterGo_eq_all fields shape filter h tb

/-- Witness for claim C10: with an empty field list, even an always false
predicate returns the full load, which contains the one stored record. -/
theorem loadValuesByFilter_trivial_filter_witness :
    loadValuesByFilter demoStore "svc" [] demoShape (some (fun _ => false)) =
      loadValuesAll demoStore "svc" demoShape ∧
    loadValuesAll demoStore "svc" demoShape = .ok [("a", demoRecord)] :=
  ⟨loadValuesByFilter_trivial_filter demoStore "svc" [] demoShape
    (some (fun _ => false)) (Or.inl rfl), rfl⟩

/-- Counterexample to claim C6 as stated: a requested field that is not found
in the introspected prototype shape does not by itself produce an error; with
a string tagged stored entry, the read of a field absent from the shape
decodes the value and returns it with no error (the shape is only consulted
in the protobuf tag branch of getFieldObject). -/
theorem getFieldObject_missing_field_no_error :
    getFieldObject ⟨[("F", encodeStringBuffer "x")], []⟩ [] "F" =
      .ok (some (FieldValue.str "x")) := rfl

/-- Claim C6 (amended): when a protobuf message tag byte is encountered, a
requested field that is not found in the introspected prototype shape, or
whose declared type does not implement the message contract, makes the single
field read return a descriptive error rather than silently skipping the
field. -/
theorem getFieldObject_message_mismatch_error (bucket : RecordBucket)
    (shape : Shape) (field : String) (rest : List Nat)
    (hv : lookupA bucket.flat (toBucketField field) =
      some (typeProtobuf :: rest))
    (hshape : lookupA shape field = none ∨
      ∃ k, lookupA shape field = some k ∧ k ≠ FieldKind.messageK) :
    exceptIsError (getFieldObject bucket shape field) = true := by
  simp only [getFieldObject, hv, if_neg (by decide : ¬ typeProtobuf = typeString),
    if_neg (by decide : ¬ typeProtobuf = typeBool),
    if_neg (by decide : ¬ typeProtobuf = typeTime), if_pos rfl]
  rcases hshape with h | ⟨k, h, hk⟩
  · simp [reflectProtoMsg, h, exceptIsError]
  · simp [reflectProtoMsg, h, hk, exceptIsError]

/-- Witness for claim C6 (amended): a protobuf tagged entry for a field absent
from the shape errors, and one for a field declared with a non message kind
errors. -/
theorem getFieldObject_message_mismatch_error_witness :
    exceptIsError (getFieldObject ⟨[("F", [typeProtobuf, 0])], []⟩ [] "F") =
      true ∧
    exceptIsError (getFieldObject ⟨[("F", [typeProtobuf, 0])], []⟩
      [("F", FieldKind.stringK)] "F") = true :=
  ⟨getFieldObject_message_mismatch_error ⟨[("F", [typeProtobuf, 0])], []⟩ []
      "F" [0] rfl (Or.inl rfl),
   getFieldObject_message_mismatch_error ⟨[("F", [typeProtobuf, 0])], []⟩
      [("F", FieldKind.stringK)] "F" [0] rfl
      (Or.inr ⟨FieldKind.stringK, rfl, by decide⟩)⟩

/-- Claim C2: LoadValues silently omits every requested key whose record
bucket is absent and raises no error for it, and binds every present key to
its deserialized record: under the assumption that the present records
deserialize cleanly, the call returns ok, and a key is bound in the result
exactly when it was requested, its bucket exists and deserializes to that
record. -/
theorem loadValues_missing_keys (store : Store) (typ : String)
    (keys : List String) (shape : Shape)
    (h : ∀ key ∈ keys, ∀ b, getBucket store typ key = some b →
      exceptIsError (deserializeObject b shape) = false) :
    exceptIsError (loadValues store typ keys shape) = false ∧
    ∀ vs, loadValues store typ keys shape = .ok vs →
      ∀ key r, lookupA vs key = some r ↔
        key ∈ keys ∧ ∃ b, getBucket store typ key = some b ∧
          deserializeObject b shape = .ok r := by
  obtain ⟨vs, hvs, hiff⟩ := loadValuesGo_spec store typ shape keys h
  constructor
  · unfold loadValues
    rw [hvs]
    rfl
  · intro vs2 hvs2
    unfold loadValues at hvs2
    rw [hvs] at hvs2
    injection hvs2 with hvs2
    subst hvs2
    exact hiff

/-- Witness for claim C2: with one present key a and one absent key missing,
the load returns only the present key with no error. -/
theorem loadValues_missing_keys_witness :
    loadValues demoStore "svc" ["a", "missing"] demoShape =
      .ok [("a", demoRecord)] ∧
    lookupA [("a", demoRecord)] "a" = some demoRecord ∧
    lookupA [("a", demoRecord)] "missing" = (none : Option Record) :=
  ⟨rfl,
   ((loadValues_missing_keys demoStore "svc" ["a", "missing"] demoShape
      (by
        intro key hk b hb
        simp only [List.mem_cons, List.not_mem_nil, or_false] at hk
        rcases hk with rfl | rfl
        · have hbe : getBucket demoStore "svc" "a" =
              some (savedBucket demoRecord) := rfl
          rw [hbe] at hb
          injection hb with hb
          subst hb
          rfl
        · have hbe : getBucket demoStore "svc" "missing" = none := rfl
          rw [hbe] at hb
          exact Option.noConfusion hb)).2 [("a", demoRecord)] rfl "a"
      demoRecord).mpr
      ⟨by decide, savedBucket demoRecord, rfl, rfl⟩,
   rfl⟩

/-- Claim C3: LoadValuesByFilter with a non empty field list and a non nil
predicate includes a record, keyed by its id after a full deserialize,
exactly when the predicate returns true on the field map built from the
requested fields; that field map omits every requested field resolving to no
value rather than binding it to a null; and an always false predicate yields
an empty result however many records are stored. -/
theorem loadValuesByFilter_predicate (store : Store) (typ : String)
    (fields : List String) (shape : Shape)
    (p : List (String × FieldValue) → Bool) (vs : List (String × Record))
    (hf : fields ≠ [])
    (hok : loadValuesByFilter store typ fields shape (some p) = .ok vs) :
    (∀ key r, (key, r) ∈ vs ↔ ∃ b, (key, b) ∈ typeEntries store typ ∧
      matchObject b fields shape (some p) = .ok true ∧
      deserializeObject b shape = .ok r) ∧
    (∀ bucket fvs, collectFieldValues bucket shape fields = .ok fvs →
      ∀ f v, (f, v) ∈ fvs ↔ f ∈ fields ∧
        getFieldObject bucket shape f = .ok (some v)) ∧
    ((∀ m, p m = false) → vs = []) := by
  refine ⟨?_, ?_, ?_⟩
  · unfold loadValuesByFilter at hok
    cases ht : lookupA store typ with
    | none =>
      rw [ht] at hok
      injection hok with hok
      subst hok
      intro key r
      simp [typeEntries, ht]
    | some tb =>
      rw [ht] at hok
      intro key r
      rw [lvbfGo_mem fields shape p tb vs hok key r]
      simp [typeEntries, ht]
  · intro bucket fvs hc f v
    exact collect_mem bucket shape fields fvs hc f v
  · intro hp
    unfold loadValuesByFilter at hok
    cases ht : lookupA store typ with
    | none =>
      rw [ht] at hok
      injection hok with hok
      exact hok.symm
    | some tb =>
      rw [ht] at hok
      exact lvbfGo_false_pred fields shape p hf hp tb vs hok

/-- Witness for claim C3: an always true predicate on field Name includes the
one stored record; the membership is derived from the claim theorem at the
stored bucket. -/
theorem loadValuesByFilter_predicate_witness :
    loadValuesByFilter demoStore "svc" ["Name"] demoShape
      (some (fun _ => true)) = .ok [("a", demoRecord)] ∧
    ("a", demoRecord) ∈ ([("a", demoRecord)] : List (String × Record)) :=
  ⟨rfl,
   ((loadValuesByFilter_predicate demoStore "svc" ["Name"] demoShape
      (fun _ => true) [("a", demoRecord)] (by decide) rfl).1 "a"
      demoRecord).mpr
    ⟨savedBucket demoRecord, by decide, rfl, rfl⟩⟩

/-- Claim C5: UpdateValue on an existing record overwrites only the entries
named in the property map; any field whose mapped bucket key is named by no
property keeps its stored flat entry and its nested sub-bucket unchanged, so
its single field read after the update returns exactly what it returned
before. -/
theorem updateValue_frame (store : Store) (typ key : String)
    (props : List (String × FieldValue)) (tb : TypeBucket) (b : RecordBucket)
    (f : String) (store2 : Store) (b2 : RecordBucket)
    (ht : lookupA store typ = some tb) (hb : lookupA tb key = some b)
    (hp : ∀ p ∈ props, toBucketField p.1 ≠ toBucketField f)
    (hu : updateValue store typ key props = .ok store2)
    (hb2 : getBucket store2 typ key = some b2) :
    lookupA b2.flat (toBucketField f) = lookupA b.flat (toBucketField f) ∧
    lookupA b2.nested (toBucketField f) = lookupA b.nested (toBucketField f) ∧
    ∀ shape, getFieldObject b2 shape f = getFieldObject b shape f := by
  by_cases hpe : props.isEmpty
  · have heq : updateValue store typ key props = .ok store := by
      simp only [updateValue, ht, hb, if_pos hpe]
    rw [heq] at hu
    injection hu with hu
    subst hu
    have hgb : getBucket store typ key = some b := by
      simp only [getBucket, ht, hb]
    rw [hgb] at hb2
    injection hb2 with hb2
    subst hb2
    exact ⟨rfl, rfl, fun _ => rfl⟩
  · have heq : updateValue store typ key props = .ok (insertA store typ
        (insertA tb key (props.foldl (fun b p => applyProperty b p.1 p.2) b))) := by
      simp only [updateValue, ht, hb, if_neg hpe]
    rw [heq] at hu
    injection hu with hu
    subst hu
    have hgb : getBucket (insertA store typ (insertA tb key
        (props.foldl (fun b p => applyProperty b p.1 p.2) b))) typ key =
        some (props.foldl (fun b p => applyProperty b p.1 p.2) b) := by
      simp only [getBucket, lookupA_insertA_self]
    rw [hgb] at hb2
    injection hb2 with hb2
    subst hb2
    obtain ⟨e1, e2⟩ := foldProps_preserves props b hp
    exact ⟨e1, e2, fun shape =>
      getFieldObject_congr _ b shape f e1 e2⟩

/-- Witness for claim C5: updating only field Name leaves the stored entry,
the nested bucket and the read of field Flag unchanged. -/
theorem updateValue_frame_witness :
    lookupA (savedBucket [("Name", FieldValue.str "Y"),
        ("Flag", FieldValue.boolV true),
        ("Tags", FieldValue.strMap [("k1", "v1")])]).flat
      (toBucketField "Flag") = some (encodeBoolBuffer true) ∧
    ∀ shape, getFieldObject (applyProperty (savedBucket demoRecord) "Name"
        (FieldValue.str "Y")) shape "Flag" =
      getFieldObject (savedBucket demoRecord) shape "Flag" :=
  ⟨rfl,
   (updateValue_frame demoStore "svc" "a" [("Name", FieldValue.str "Y")]
      [("a", savedBucket demoRecord)] (savedBucket demoRecord) "Flag"
      (insertA demoStore "svc" (insertA [("a", savedBucket demoRecord)] "a"
        (applyProperty (savedBucket demoRecord) "Name" (FieldValue.str "Y"))))
      (applyProperty (savedBucket demoRecord) "Name" (FieldValue.str "Y"))
      rfl rfl (by decide) rfl rfl).2.2⟩

/-- Claim C9: CountValues counts the record buckets directly under the type
bucket: it is zero with no error when the type bucket is absent, it is N
after saving N records under N distinct keys of one type starting from the
empty store, and it is N minus M after further deleting M of those keys. -/
theorem countValues_population (store : Store) (typ : String)
    (kvs : List (String × Record)) (ms : List String)
    (hstore : lookupA store typ = none)
    (hkvs : (kvs.map Prod.fst).Nodup) (hms : ms.Nodup)
    (hsub : ∀ m ∈ ms, m ∈ kvs.map Prod.fst) :
    countValues store typ = 0 ∧
    countValues (saveList emptyStore typ kvs) typ = kvs.length ∧
    countValues (deleteValues (saveList emptyStore typ kvs) typ ms) typ =
      kvs.length - ms.length := by
  have hemp : typeKeys emptyStore typ = [] := rfl
  have hfreshe : ∀ k ∈ kvs.map Prod.fst, k ∉ typeKeys emptyStore typ := by
    intro k _
    rw [hemp]
    exact List.not_mem_nil k
  obtain ⟨hc, hk⟩ := saveList_fresh typ kvs emptyStore hkvs hfreshe
  have hc0 : countValues emptyStore typ = 0 := rfl
  refine ⟨?_, ?_, ?_⟩
  · unfold countValues
    rw [hstore]
  · rw [hc, hc0]
    omega
  · have hnd2 : (typeKeys (saveList emptyStore typ kvs) typ).Nodup := by
      rw [hk, hemp]
      simpa using hkvs
    have hsub2 : ∀ m ∈ ms, m ∈ typeKeys (saveList emptyStore typ kvs) typ := by
      intro m hm
      rw [hk, hemp]
      simpa using hsub m hm
    rw [countValues_deleteValues _ _ ms hnd2 hms hsub2, hc, hc0]
    omega

/-- Witness for claim C9: two saves then one delete give counts two and one,
and the count of an absent type is zero. -/
theorem countValues_population_witness :
    countValues emptyStore "svc" = 0 ∧
    countValues (saveList emptyStore "svc"
      [("a", demoRecord), ("b", demoRecordB)]) "svc" = 2 ∧
    countValues (deleteValues (saveList emptyStore "svc"
      [("a", demoRecord), ("b", demoRecordB)]) "svc" ["a"]) "svc" = 2 - 1 :=
  countValues_population emptyStore "svc"
    [("a", demoRecord), ("b", demoRecordB)] ["a"] rfl (by decide) (by decide)
    (by decide)

end BoltStore
